import Mathlib

/-!
# Verification of the static-pkgsite crawl-and-rewrite engine

Shallow embedding of the `cmd/internal/pkgsite` generator: URL-path depth
computation, output-path mapping, CSP injection, HTML/asset path rewriting,
redirect-following page rendering, page enumeration, and the crawl loop.

Strings and byte slices are modelled as `List Char` (the sources only handle
ASCII path/HTML data, where Go's byte-wise operations coincide with
character-wise ones).  `filepath.FromSlash` is the identity on the target
platform (Linux) and is omitted.  Filesystem writes are modelled by returning
the `(path, bytes)` pair that would be written.
-/

set_option maxRecDepth 16384

/-- Abbreviation: the character list of a string literal. -/
def str (s : String) : List Char := s.data

/-- The single-quote character (written via its code point to keep source
literals free of quote characters). -/
def sqc : Char := Char.ofNat 39

/-- The double-quote character. -/
def dqc : Char := Char.ofNat 34

/-- `strings.Repeat`: `n` copies of `s` concatenated. -/
def repStr : Nat → List Char → List Char
  | 0, _ => []
  | n + 1, s => s ++ repStr n s

/-- `strings.TrimPrefix(s, "/")`: drop one leading slash if present. -/
def trimLeadSlash : List Char → List Char
  | '/' :: t => t
  | l => l

/-- Source (`generate.go` / the static generator module), `relativePrefix`:

    clean := strings.TrimPrefix(urlPath, "/")
    if clean == "" { return "./" }
    depth := strings.Count(clean, "/") + 1
    return strings.Repeat("../", depth)

`strings.Count(clean, "/")` counts the occurrences of the character `/`. -/
def relativePrefix (urlPath : List Char) : List Char :=
  let clean := trimLeadSlash urlPath
  if clean.isEmpty then str "./"
  else repStr (clean.count '/' + 1) (str "../")

/-- Split a character list on `/` (the list of `/`-separated segments).
`segments "" = [""]`, `segments "a/b" = ["a","b"]`, `segments "a/" = ["a",""]`. -/
def segments : List Char → List (List Char)
  | [] => [[]]
  | c :: t =>
    if c = '/' then [] :: segments t
    else
      match segments t with
      | s :: ss => (c :: s) :: ss
      | [] => [[c]]

/-- Spec §3 data model: `Depth(p)` is the number of `/`-separated non-empty
segments of the URL path. -/
def specDepth (p : List Char) : Nat :=
  ((segments p).filter (fun s => !s.isEmpty)).length

/-- Spec §3 invariant for `URLPath`: begins with `/`; apart from the root `/`
itself it has no trailing slash and no empty segment. -/
def URLPathWF : List Char → Bool
  | [] => false
  | c :: rest => c == '/' && (rest.isEmpty || (segments rest).all (fun s => !s.isEmpty))

theorem segments_ne_nil (l : List Char) : segments l ≠ [] := by
  induction l with
  | nil => simp [segments]
  | cons c t ih =>
    simp only [segments]
    split
    · simp
    · cases h : segments t with
      | nil => simp
      | cons s ss => simp

theorem length_segments (l : List Char) :
    (segments l).length = l.count '/' + 1 := by
  induction l with
  | nil => simp [segments]
  | cons c t ih =>
    simp only [segments]
    split
    · rename_i h
      subst h
      simp [List.count_cons, ih]
    · rename_i h
      cases hs : segments t with
      | nil => exact absurd hs (segments_ne_nil t)
      | cons s ss =>
        rw [hs] at ih
        simp only [List.length_cons] at ih ⊢
        have : c ≠ '/' := h
        simp [List.count_cons, this, ih]

theorem specDepth_of_all_nonempty (l : List Char)
    (h : (segments l).all (fun s => !s.isEmpty) = true) :
    ((segments l).filter (fun s => !s.isEmpty)).length = l.count '/' + 1 := by
  rw [List.filter_eq_self.mpr, length_segments]
  intro s hs
  exact (List.all_eq_true.mp h) s hs

/-- For a well-formed non-root path `/rest`, the spec depth is the number of
slashes in `rest` plus one — exactly the quantity `relativePrefix` computes. -/
theorem specDepth_slash_cons (rest : List Char)
    (h : (segments rest).all (fun s => !s.isEmpty) = true) :
    specDepth ('/' :: rest) = rest.count '/' + 1 := by
  have hseg : segments ('/' :: rest) = [] :: segments rest := by
    simp [segments]
  unfold specDepth
  rw [hseg]
  simp only [List.filter_cons]
  simp only [List.isEmpty_nil]
  simp only [Bool.not_true, ite_false]
  exact specDepth_of_all_nonempty rest h

/-- Central helper: on well-formed URL paths, the code's `relativePrefix`
agrees with the spec's depth-based description. -/
theorem relativePrefix_eq (p : List Char) (hwf : URLPathWF p = true) :
    relativePrefix p =
      (if specDepth p = 0 then str "./" else repStr (specDepth p) (str "../")) := by
  cases p with
  | nil => simp [URLPathWF] at hwf
  | cons c rest =>
    simp only [URLPathWF, Bool.and_eq_true, Bool.or_eq_true, beq_iff_eq] at hwf
    obtain ⟨hc, hrest⟩ := hwf
    subst hc
    by_cases hne : rest = []
    · subst hne
      decide
    · have hall : (segments rest).all (fun s => !s.isEmpty) = true := by
        cases hrest with
        | inl h => exact absurd (by simpa using h) hne
        | inr h => exact h
      have hdep := specDepth_slash_cons rest hall
      rw [hdep, if_neg (by omega)]
      simp [relativePrefix, trimLeadSlash, hne]

/-- **C6.** For every well-formed URL path `p`, `Depth("/") = 0`, and
`relativePrefix` returns `"./"` exactly at depth `0` and `Depth(p)`
repetitions of `"../"` otherwise; in particular `relativePrefix "/" = "./"`,
`relativePrefix "/about" = "../"`, `relativePrefix "/net/http" = "../../"`. -/
theorem relativePrefix_depth (p : List Char) (hwf : URLPathWF p = true) :
    (specDepth (str "/") = 0 ∧
     (specDepth p = 0 → relativePrefix p = str "./") ∧
     (specDepth p ≠ 0 → relativePrefix p = repStr (specDepth p) (str "../"))) ∧
    relativePrefix (str "/") = str "./" ∧
    relativePrefix (str "/about") = str "../" ∧
    relativePrefix (str "/net/http") = str "../../" := by
  refine ⟨⟨by decide, ?_, ?_⟩, by decide, by decide, by decide⟩
  · intro hd
    rw [relativePrefix_eq p hwf, if_pos hd]
  · intro hd
    rw [relativePrefix_eq p hwf, if_neg hd]

/-- Witness for C6 at the concrete path `/net/http`. -/
theorem relativePrefix_depth_witness :
    URLPathWF (str "/net/http") = true ∧
    (specDepth (str "/net/http") ≠ 0 →
      relativePrefix (str "/net/http") =
        repStr (specDepth (str "/net/http")) (str "../")) :=
  ⟨by decide, (relativePrefix_depth (str "/net/http") (by decide)).1.2.2⟩

/-! ## Output path mapping (`urlPathToFilePath`) -/

/-- `filepath.Ext`: scan backward from the end; the extension starts at the
last dot found before any path separator, and is empty when there is none.
`extRev acc r` walks the reversed path `r`, with `acc` holding the already
scanned suffix (in original order). -/
def extRev (acc : List Char) : List Char → List Char
  | [] => []
  | c :: t =>
    if c = '/' then []
    else if c = '.' then '.' :: acc
    else extRev (c :: acc) t

def filepathExt (p : List Char) : List Char := extRev [] p.reverse

/-- `filepath.Join` of two clean slash-separated components (the only shape the
generator produces): empty parts are dropped, otherwise join with `/`.  On
Linux `filepath.FromSlash` is the identity. -/
def joinPath (a b : List Char) : List Char :=
  if a.isEmpty then b
  else if b.isEmpty then a
  else a ++ '/' :: b

/-- Source `urlPathToFilePath`:

    clean := strings.TrimPrefix(urlPath, "/")
    if clean == "" { return filepath.Join(outDir, "index.html") }
    if ext := filepath.Ext(clean); ext != "" {
        return filepath.Join(outDir, filepath.FromSlash(clean))
    }
    return filepath.Join(outDir, filepath.FromSlash(clean), "index.html")

The three-argument `Join` is the two nested binary joins. -/
def urlPathToFilePath (urlPath outDir : List Char) : List Char :=
  let clean := trimLeadSlash urlPath
  if clean.isEmpty then joinPath outDir (str "index.html")
  else if !(filepathExt clean).isEmpty then joinPath outDir clean
  else joinPath (joinPath outDir clean) (str "index.html")

/-- **C5.** For every well-formed URL path without a file extension, the output
file (relative to the output root, i.e. `outDir = ""`) sits at a directory
depth equal to the path's segment count — the number of `/` separators in the
output path equals `Depth(p)` — and the relative prefix computed for that page
is exactly `Depth(p)` parent hops (`"./"` at the root), so it resolves from
the written page's directory back to the output root. -/
theorem urlPathToFilePath_depth (p : List Char) (hwf : URLPathWF p = true)
    (hext : filepathExt (trimLeadSlash p) = []) :
    (urlPathToFilePath p []).count '/' = specDepth p ∧
    relativePrefix p =
      (if specDepth p = 0 then str "./" else repStr (specDepth p) (str "../")) := by
  refine ⟨?_, relativePrefix_eq p hwf⟩
  cases p with
  | nil => simp [URLPathWF] at hwf
  | cons c rest =>
    simp only [URLPathWF, Bool.and_eq_true, Bool.or_eq_true, beq_iff_eq] at hwf
    obtain ⟨hc, hrest⟩ := hwf
    subst hc
    by_cases hne : rest = []
    · subst hne
      decide
    · have hall : (segments rest).all (fun s => !s.isEmpty) = true := by
        cases hrest with
        | inl h => exact absurd (by simpa using h) hne
        | inr h => exact h
      have hdep := specDepth_slash_cons rest hall
      have htrim : trimLeadSlash ('/' :: rest) = rest := rfl
      rw [htrim] at hext
      have hidx : (str "index.html").isEmpty = false := by decide
      have hcount : (str "index.html").count '/' = 0 := by decide
      rw [hdep]
      simp only [urlPathToFilePath, htrim, hext, joinPath]
      simp [hne, hidx, List.count_append, List.count_cons, hcount]

/-- Witness for C5 at the concrete path `/net/http`. -/
theorem urlPathToFilePath_depth_witness :
    URLPathWF (str "/net/http") = true ∧
    filepathExt (trimLeadSlash (str "/net/http")) = [] ∧
    (urlPathToFilePath (str "/net/http") []).count '/' = specDepth (str "/net/http") :=
  ⟨by decide, by decide,
    (urlPathToFilePath_depth (str "/net/http") (by decide) (by decide)).1⟩

/-! ## CSP injection (`injectCSP`) -/

/-- A token wrapped in single quotes, as used in CSP directive values. -/
def quoted (s : String) : List Char := sqc :: s.data ++ [sqc]

/-- Source constant `cspContent`: the Content-Security-Policy directive value
(single-quoted tokens are assembled from `quoted` to keep the Lean source free
of quote characters). -/
def cspContent : List Char :=
  str "default-src " ++ quoted "self" ++
  str "; script-src " ++ quoted "self" ++ str " " ++ quoted "unsafe-inline" ++
  str "; style-src " ++ quoted "self" ++ str " " ++ quoted "unsafe-inline" ++
  str "; img-src " ++ quoted "self" ++ str " data:" ++
  str "; font-src " ++ quoted "self" ++
  str "; connect-src " ++ quoted "none" ++
  str "; frame-src " ++ quoted "none" ++
  str "; object-src " ++ quoted "none" ++
  str "; base-uri " ++ quoted "none"

/-- Source constant `cspMeta`: the full meta tag around `cspContent`. -/
def cspMeta : List Char :=
  str "<meta http-equiv=" ++ [dqc] ++ str "Content-Security-Policy" ++ [dqc] ++
  str " content=" ++ [dqc] ++ cspContent ++ [dqc] ++ str ">"

/-- `bytes.Index`: index of the first occurrence of `needle`, `none` if absent. -/
def indexOfSub (needle : List Char) : List Char → Option Nat
  | [] => if needle.isPrefixOf [] then some 0 else none
  | c :: t =>
    if needle.isPrefixOf (c :: t) then some 0
    else (indexOfSub needle t).map (· + 1)

/-- `bytes.Contains` / `strings.Contains`. -/
def containsSub (needle haystack : List Char) : Bool :=
  (indexOfSub needle haystack).isSome

/-- The bytes `injectCSP` splices in: a newline, indentation, and `cspMeta`. -/
def cspInsertion : List Char := str "\n    " ++ cspMeta

/-- Source `injectCSP`: insert `cspInsertion` right after the first `<head>`;
failing that, right after the `>` closing the first `<head ` (head tag with
attributes); otherwise return the input unchanged. -/
def injectCSP (html : List Char) : List Char :=
  match indexOfSub (str "<head>") html with
  | some idx =>
    let insertion := idx + (str "<head>").length
    html.take insertion ++ cspInsertion ++ html.drop insertion
  | none =>
    match indexOfSub (str "<head ") html with
    | some idx =>
      match (html.drop idx).findIdx? (fun c => c == '>') with
      | some e =>
        let insertion := idx + e + 1
        html.take insertion ++ cspInsertion ++ html.drop insertion
      | none => html
    | none => html

/-- **C10.** Any input that contains neither `"<head>"` nor `"<head "` passes
through `injectCSP` byte-identical: nothing is inserted and no error path
exists. -/
theorem injectCSP_no_head (html : List Char)
    (h1 : containsSub (str "<head>") html = false)
    (h2 : containsSub (str "<head ") html = false) :
    injectCSP html = html := by
  have e1 : indexOfSub (str "<head>") html = none := by
    cases h : indexOfSub (str "<head>") html with
    | none => rfl
    | some v => rw [containsSub, h] at h1; simp at h1
  have e2 : indexOfSub (str "<head ") html = none := by
    cases h : indexOfSub (str "<head ") html with
    | none => rfl
    | some v => rw [containsSub, h] at h2; simp at h2
  simp [injectCSP, e1, e2]

/-- Witness for C10 on a headless body. -/
theorem injectCSP_no_head_witness :
    containsSub (str "<head>") (str "plain text body") = false ∧
    containsSub (str "<head ") (str "plain text body") = false ∧
    injectCSP (str "plain text body") = str "plain text body" :=
  ⟨by decide, by decide,
    injectCSP_no_head (str "plain text body") (by decide) (by decide)⟩

/-! ## Asset rewriting (`absoluteToRelativeAsset`, `copyEmbeddedFS`) -/

/-- `bytes.ReplaceAll` (non-overlapping left-to-right scan).  The recursion is
driven by a fuel argument initialised to the input length; every step consumes
at least one character of the input (all call sites use non-empty patterns),
so the fuel never runs out. -/
def replaceAllF (olds news : List Char) : Nat → List Char → List Char
  | 0, l => l
  | _ + 1, [] => []
  | fuel + 1, c :: t =>
    if olds.isPrefixOf (c :: t) then
      news ++ replaceAllF olds news fuel ((c :: t).drop olds.length)
    else c :: replaceAllF olds news fuel t

def replaceAll (olds news l : List Char) : List Char := replaceAllF olds news l.length l

/-- `path.Dir` for the clean, slash-separated relative paths produced by the
embedded-FS walk (no trailing slashes, no dot segments, so `path.Clean` is the
identity): everything before the last `/`, or `"."` when there is no slash. -/
def pathDir (p : List Char) : List Char :=
  let rest := p.reverse.dropWhile (fun c => c != '/')
  if rest.isEmpty then str "."
  else (rest.drop 1).reverse

/-- The depth computation at the top of source `absoluteToRelativeAsset`:

    dir := path.Dir(filePath)
    depth := 0
    if dir != "." { depth = strings.Count(dir, "/") + 1 }
-/
def assetDepth (filePath : List Char) : Nat :=
  let dir := pathDir filePath
  if dir = str "." then 0 else dir.count '/' + 1

/-- Source `absoluteToRelativeAsset`: for each bundle root `/static/` and
`/third_party/`, rewrite the double-quoted, single-quoted and unquoted
`url(`-style occurrences, replacing the leading slash by `../` repeated
`assetDepth filePath` times. -/
def absoluteToRelativeAsset (content filePath : List Char) : List Char :=
  let pre := repStr (assetDepth filePath) (str "../")
  (([str "/static/", str "/third_party/"]).foldl (fun c d =>
    let c := replaceAll (dqc :: d) (dqc :: (pre ++ d.drop 1)) c
    let c := replaceAll (sqc :: d) (sqc :: (pre ++ d.drop 1)) c
    replaceAll ('(' :: d) ('(' :: (pre ++ d.drop 1)) c) content)

/-- The site-relative path `copyEmbeddedFS` hands to `absoluteToRelativeAsset`
for a CSS/JS file: `path.Join(filepath.Base(destDir), fpath)`, where the base
is `"static"` or `"third_party"` and both components are non-empty clean
paths, so `path.Join` is concatenation with `/`. -/
def copyAssetSiteRelPath (destDirBase fpath : List Char) : List Char :=
  joinPath destDirBase fpath

/-- The per-file CSS/JS transformation performed by `copyEmbeddedFS` (the
filesystem walk and write are not modelled; this is the data it writes). -/
def copyAssetData (destDirBase fpath content : List Char) : List Char :=
  absoluteToRelativeAsset content (copyAssetSiteRelPath destDirBase fpath)

/-- **C2 counterexample.** A file at the root of an embedded bundle is copied
with site-relative path `static/style.css`, so its computed depth is 1, not 0:
the zero-`../` rewrite is *not* what `copyEmbeddedFS` produces for files at
the embedded bundle roots. -/
theorem copyAssetData_root_not_zero_depth :
    copyAssetData (str "static") (str "style.css") (str "url(/static/foo.png)")
      = str "url(../static/foo.png)" ∧
    copyAssetData (str "static") (str "style.css") (str "url(/static/foo.png)")
      ≠ str "url(static/foo.png)" := by
  constructor
  · decide
  · decide

theorem dropWhileSlash_of_mem (l : List Char) (h : '/' ∈ l) :
    ∃ w, l.dropWhile (fun c => c != '/') = '/' :: w := by
  induction l with
  | nil => simp at h
  | cons c t ih =>
    by_cases hc : c = '/'
    · subst hc
      exact ⟨t, by simp [List.dropWhile_cons]⟩
    · have hmem : '/' ∈ t := by
        cases h with
        | head => exact absurd rfl hc
        | tail _ h => exact h
      obtain ⟨w, hw⟩ := ih hmem
      refine ⟨w, ?_⟩
      simp [List.dropWhile_cons, hc, hw]

theorem dropWhileSlash_append_of_no_slash (l r : List Char) (h : ∀ x ∈ l, x ≠ '/') :
    (l ++ r).dropWhile (fun c => c != '/') = r.dropWhile (fun c => c != '/') := by
  induction l with
  | nil => simp
  | cons c t ih =>
    have hc : c ≠ '/' := h c (by simp)
    simp only [List.cons_append, List.dropWhile_cons]
    simp only [bne_iff_ne, ne_eq, hc, not_false_eq_true, if_true]
    exact ih (fun x hx => h x (by simp [hx]))

theorem dropWhileSlash_append_of_ne_nil (l r : List Char)
    (h : l.dropWhile (fun c => c != '/') ≠ []) :
    (l ++ r).dropWhile (fun c => c != '/') = l.dropWhile (fun c => c != '/') ++ r := by
  induction l with
  | nil => simp at h
  | cons c t ih =>
    by_cases hc : c = '/'
    · subst hc
      simp [List.dropWhile_cons]
    · simp only [List.cons_append, List.dropWhile_cons, bne_iff_ne, ne_eq, hc,
        not_false_eq_true, if_true] at h ⊢
      exact ih h

theorem count_of_dropWhileSlash (l w : List Char)
    (h : l.dropWhile (fun c => c != '/') = '/' :: w) :
    l.count '/' = w.count '/' + 1 := by
  have hsplit := List.takeWhile_append_dropWhile (p := fun c => c != '/') (l := l)
  have htake : (l.takeWhile (fun c => c != '/')).count '/' = 0 := by
    rw [List.count_eq_zero]
    intro hmem
    have := List.mem_takeWhile_imp hmem
    simp at this
  calc l.count '/'
      = (l.takeWhile (fun c => c != '/') ++ l.dropWhile (fun c => c != '/')).count '/' := by
        rw [hsplit]
    _ = w.count '/' + 1 := by
        rw [h, List.count_append, htake, List.count_cons]
        simp

/-- Depth of a copied bundle file: prepending the destination base directory
(`static` or `third_party`) always yields depth `count of slashes in fpath + 1`,
in particular never 0. -/
theorem assetDepth_copyAssetSiteRelPath (base f : List Char) (hb : base ≠ [])
    (hbd : base ≠ str ".") (hbs : '/' ∉ base) (hf : f ≠ []) :
    assetDepth (copyAssetSiteRelPath base f) = f.count '/' + 1 := by
  have hjoin : copyAssetSiteRelPath base f = base ++ '/' :: f := by
    simp [copyAssetSiteRelPath, joinPath, List.isEmpty_iff, hb, hf]
  have hrev : (base ++ '/' :: f).reverse = f.reverse ++ '/' :: base.reverse := by
    simp
  have hbcount : base.count '/' = 0 := List.count_eq_zero.mpr hbs
  rw [hjoin]
  by_cases hsf : '/' ∈ f
  · obtain ⟨w, hw⟩ := dropWhileSlash_of_mem f.reverse (by simpa using hsf)
    have hdw : (base ++ '/' :: f).reverse.dropWhile (fun c => c != '/')
        = '/' :: (w ++ '/' :: base.reverse) := by
      rw [hrev, dropWhileSlash_append_of_ne_nil _ _ (by rw [hw]; simp), hw]
      simp
    have hdir : pathDir (base ++ '/' :: f) = base ++ '/' :: w.reverse := by
      simp only [pathDir, hdw]
      simp
    have hne : base ++ '/' :: w.reverse ≠ str "." := by
      intro heq
      have hlen := congrArg List.length heq
      have hb1 : 0 < base.length := List.length_pos.mpr hb
      simp [str] at hlen
      omega
    have hfc : f.count '/' = w.count '/' + 1 := by
      have := count_of_dropWhileSlash f.reverse w hw
      simpa using this
    simp only [assetDepth, hdir, hne, if_false]
    simp [List.count_append, List.count_cons, hbcount, hfc]
  · have hnos : ∀ x ∈ f.reverse, x ≠ '/' := by
      intro x hx
      intro heq
      subst heq
      exact hsf (by simpa using hx)
    have hdw : (base ++ '/' :: f).reverse.dropWhile (fun c => c != '/')
        = '/' :: base.reverse := by
      rw [hrev, dropWhileSlash_append_of_no_slash _ _ hnos]
      simp [List.dropWhile_cons]
    have hdir : pathDir (base ++ '/' :: f) = base := by
      simp only [pathDir, hdw]
      simp
    have hfc : f.count '/' = 0 := List.count_eq_zero.mpr hsf
    simp [assetDepth, hdir, hbd, hbcount, hfc]

/-- **C2 (amended).** The asset transformer computes its relative prefix from
`dirname(bundleRelativePath)` only; a file at the *site* root (`style.css`)
rewrites `/static/foo.png` to `static/foo.png` with zero `../` segments, and a
file three directories deep rewrites it with three `../` segments.  However,
the zero-depth case is not reachable through `copyEmbeddedFS`: every file
copied from an embedded bundle root receives the top-level directory name as a
prefix, so its computed depth is `count of slashes in its bundle path + 1 ≥ 1`. -/
theorem absoluteToRelativeAsset_dirname_depth :
    (∀ content f1 f2, pathDir f1 = pathDir f2 →
       absoluteToRelativeAsset content f1 = absoluteToRelativeAsset content f2) ∧
    absoluteToRelativeAsset (str "url(/static/foo.png)") (str "style.css")
      = str "url(static/foo.png)" ∧
    absoluteToRelativeAsset (str "url(/static/foo.png)") (str "a/b/c/style.css")
      = str "url(../../../static/foo.png)" ∧
    (∀ base f, base ≠ [] → base ≠ str "." → '/' ∉ base → f ≠ [] →
       assetDepth (copyAssetSiteRelPath base f) = f.count '/' + 1) := by
  refine ⟨?_, by decide, by decide, assetDepth_copyAssetSiteRelPath⟩
  intro content f1 f2 h
  simp only [absoluteToRelativeAsset, assetDepth, h]

/-- Witness for the amended C2 on a depth-1 bundle file. -/
theorem absoluteToRelativeAsset_dirname_depth_witness :
    pathDir (str "x/style.css") = pathDir (str "x/other.css") ∧
    absoluteToRelativeAsset (str "u") (str "x/style.css")
      = absoluteToRelativeAsset (str "u") (str "x/other.css") ∧
    assetDepth (copyAssetSiteRelPath (str "static") (str "frontend/frontend.css"))
      = (str "frontend/frontend.css").count '/' + 1 :=
  ⟨by decide,
    absoluteToRelativeAsset_dirname_depth.1 (str "u") (str "x/style.css")
      (str "x/other.css") (by decide),
    absoluteToRelativeAsset_dirname_depth.2.2.2 (str "static")
      (str "frontend/frontend.css") (by decide) (by decide) (by decide) (by decide)⟩

/-! ## HTML rewriting (`absoluteToRelativeHTML`) and rendering (`renderAndWriteN`) -/

/-- Go regexp `\s`: the class `[\t\n\f\r ]`. -/
def isReSpace (c : Char) : Bool :=
  c = ' ' || c = Char.ofNat 9 || c = Char.ofNat 10 || c = Char.ofNat 12 || c = Char.ofNat 13

/-- The attribute alternatives of `attrAbsPathRe`, in the order they appear. -/
def attrNames : List (List Char) := [str "href", str "src", str "action"]

/-- Matcher for the source regular expression

    ((?:href|src|action)\s*=\s*["'])/([^/"'][^"']*)

anchored at the start of `l`; returns `(group1, group2, rest)` on success.
The alternatives start with distinct letters, `\s` never matches `=` or a
quote, and nothing follows the final greedy class, so this maximal-munch scan
is exactly the regexp's match behaviour at this position. -/
def matchAttrRe (l : List Char) : Option (List Char × List Char × List Char) :=
  match attrNames.find? (fun a => a.isPrefixOf l) with
  | none => none
  | some attr =>
    let r1 := l.drop attr.length
    let ws1 := r1.takeWhile isReSpace
    let r2 := r1.drop ws1.length
    match r2 with
    | '=' :: r3 =>
      let ws2 := r3.takeWhile isReSpace
      let r4 := r3.drop ws2.length
      match r4 with
      | q :: '/' :: c1 :: r5 =>
        if (q = dqc || q = sqc) && !(c1 = '/' || c1 = dqc || c1 = sqc) then
          let g2t := r5.takeWhile (fun c => !(c = dqc || c = sqc))
          some (attr ++ ws1 ++ '=' :: ws2 ++ [q], c1 :: g2t, r5.drop g2t.length)
        else none
      | _ => none
    | _ => none

/-- `attrAbsPathRe.ReplaceAll(content, "$1" + prefix + "$2")`: left-to-right
scan; each match is replaced by `group1 ++ pre ++ group2` (dropping the
matched `/`), and scanning resumes after the match.  Fuel-driven structural
recursion with fuel = input length; a match always consumes at least the
attribute name, so the fuel never runs out. -/
def replaceAttrReF (pre : List Char) : Nat → List Char → List Char
  | 0, l => l
  | _ + 1, [] => []
  | fuel + 1, c :: t =>
    match matchAttrRe (c :: t) with
    | some (g1, g2, rest) => g1 ++ pre ++ g2 ++ replaceAttrReF pre fuel rest
    | none => c :: replaceAttrReF pre fuel t

def replaceAttrRe (pre l : List Char) : List Char := replaceAttrReF pre l.length l

/-- Source `absoluteToRelativeHTML` (regex generation): the `attrAbsPathRe`
pass, then the exact `attr="/"` root-reference replacements for each of
href/src/action and both quote kinds, then the quoted `/static/` and
`/third_party/` replacements for inline scripts. -/
def absoluteToRelativeHTML (content urlPath : List Char) : List Char :=
  let pre := relativePrefix urlPath
  let c1 := replaceAttrRe pre content
  let c2 := (attrNames).foldl (fun c attr =>
    let c := replaceAll (attr ++ '=' :: dqc :: '/' :: [dqc])
                        (attr ++ '=' :: dqc :: (pre ++ [dqc])) c
    replaceAll (attr ++ '=' :: sqc :: '/' :: [sqc])
               (attr ++ '=' :: sqc :: (pre ++ [sqc])) c) c1
  ([str "/static/", str "/third_party/"]).foldl (fun c d =>
    let c := replaceAll (dqc :: d) (dqc :: (pre ++ d.drop 1)) c
    replaceAll (sqc :: d) (sqc :: (pre ++ d.drop 1)) c) c2

/-- An `httptest.ResponseRecorder` after serving a request: status code, the
`Location` header (empty = absent), the `Content-Type` header, and the body. -/
structure Response where
  code : Nat
  location : List Char
  contentType : List Char
  body : List Char

/-- The two per-page error shapes of `renderAndWriteN`:
`too many redirects for <path>` and `GET <path> returned status <code>`. -/
inductive RenderError where
  | tooManyRedirects (urlPath : List Char)
  | unexpectedStatus (urlPath : List Char) (code : Nat)
deriving DecidableEq

/-- The HTML post-processing step of `renderAndWriteN`: when the Content-Type
contains `text/html` or is empty, inject the CSP tag and relativise paths. -/
def processBody (w : Response) (urlPath : List Char) : List Char :=
  if containsSub (str "text/html") w.contentType || w.contentType.isEmpty then
    absoluteToRelativeHTML (injectCSP w.body) urlPath
  else w.body

/-- Source `renderAndWriteN` (the write is modelled by returning the
`(path, bytes)` pair).  The Go function recurses with `depth + 1` and errors
when `depth > 5`; here the remaining budget `fuel = 6 - depth` drives a
structural recursion, with `fuel = 0` exactly when `depth > 5`. -/
def renderAux (mux : List Char → Response) (outDir : List Char) :
    Nat → List Char → Except RenderError (List Char × List Char)
  | 0, urlPath => .error (.tooManyRedirects urlPath)
  | fuel + 1, urlPath =>
    let w := mux urlPath
    if (w.code = 301 || w.code = 302) && !w.location.isEmpty then
      renderAux mux outDir fuel w.location
    else if w.code ≠ 200 then .error (.unexpectedStatus urlPath w.code)
    else .ok (urlPathToFilePath urlPath outDir, processBody w urlPath)

def renderAndWriteN (mux : List Char → Response) (urlPath outDir : List Char)
    (depth : Nat) : Except RenderError (List Char × List Char) :=
  renderAux mux outDir (6 - depth) urlPath

/-- Source `renderAndWrite`: `renderAndWriteN` at depth 0. -/
def renderAndWrite (mux : List Char → Response) (urlPath outDir : List Char) :
    Except RenderError (List Char × List Char) :=
  renderAndWriteN mux urlPath outDir 0

/-- One redirect hop: `p`'s response is a 301/302 with non-empty `Location` `q`. -/
def redirectsTo (mux : List Char → Response) (p q : List Char) : Bool :=
  ((mux p).code == 301 || (mux p).code == 302) && (mux p).location == q && !q.isEmpty

/-- `redirectChain mux p qs`: following redirects from `p` visits `qs` in order. -/
def redirectChain (mux : List Char → Response) : List Char → List (List Char) → Bool
  | _, [] => true
  | p, q :: qs => redirectsTo mux p q && redirectChain mux q qs

/-- The last element of a redirect chain (the starting point when empty). -/
def chainEnd (p : List Char) : List (List Char) → List Char
  | [] => p
  | q :: qs => chainEnd q qs

deriving instance DecidableEq for Except

theorem renderAux_succ_ok (mux : List Char → Response) (outDir p : List Char)
    (fuel : Nat) (h200 : (mux p).code = 200) :
    renderAux mux outDir (fuel + 1) p =
      .ok (urlPathToFilePath p outDir, processBody (mux p) p) := by
  simp [renderAux, h200]

theorem renderAux_chain (mux : List Char → Response) (outDir : List Char) :
    ∀ (qs : List (List Char)) (p : List Char) (fuel : Nat),
      redirectChain mux p qs = true → qs.length ≤ fuel →
      renderAux mux outDir fuel p =
        renderAux mux outDir (fuel - qs.length) (chainEnd p qs) := by
  intro qs
  induction qs with
  | nil => intro p fuel _ _; simp [chainEnd]
  | cons q qs ih =>
    intro p fuel hchain hlen
    simp only [redirectChain, Bool.and_eq_true] at hchain
    obtain ⟨hto, hrest⟩ := hchain
    simp only [redirectsTo, Bool.and_eq_true, Bool.or_eq_true, beq_iff_eq,
      Bool.not_eq_eq_eq_not, Bool.not_false] at hto
    obtain ⟨⟨hcode, hloc⟩, hq⟩ := hto
    cases fuel with
    | zero => simp at hlen
    | succ f =>
      have hcond : (((mux p).code = 301 || (mux p).code = 302)
          && !(mux p).location.isEmpty) = true := by
        rcases hcode with h | h <;> simp [h, hloc, hq]
      have hstep : renderAux mux outDir (f + 1) p = renderAux mux outDir f q := by
        rw [renderAux]
        rw [if_pos]
        · rw [hloc]
        · exact hcond
      rw [hstep, ih q f hrest (by simpa using hlen)]
      simp [chainEnd, Nat.succ_sub_succ]

/-- **C1 (amended).** For every router and URL path: a chain needing more than
5 redirect hops fails with the too-many-redirects error (reported for the
sixth target), while a chain of exactly 5 hops whose final target answers 200
succeeds — but the output file path and the HTML post-processing are derived
from the *final redirect target's* URL path, not the original request's. -/
theorem renderAndWriteN_redirects (mux : List Char → Response)
    (outDir p : List Char) (qs : List (List Char))
    (hchain : redirectChain mux p qs = true) :
    (qs.length = 6 →
      renderAndWriteN mux p outDir 0 =
        .error (.tooManyRedirects (chainEnd p qs))) ∧
    (qs.length = 5 → (mux (chainEnd p qs)).code = 200 →
      renderAndWriteN mux p outDir 0 =
        .ok (urlPathToFilePath (chainEnd p qs) outDir,
             processBody (mux (chainEnd p qs)) (chainEnd p qs))) := by
  constructor
  · intro h6
    rw [renderAndWriteN, renderAux_chain mux outDir qs p 6 hchain (by omega), h6]
    rfl
  · intro h5 h200
    rw [renderAndWriteN, renderAux_chain mux outDir qs p 6 hchain (by omega), h5]
    exact renderAux_succ_ok mux outDir (chainEnd p qs) 0 h200

/-- A concrete router: `/a` redirects once to `/b`, which serves a CSS body. -/
def muxC1 : List Char → Response := fun p =>
  if p = str "/a" then ⟨301, str "/b", [], []⟩
  else if p = str "/b" then ⟨200, [], str "text/css", str "BODY"⟩
  else ⟨404, [], [], []⟩

/-- **C1 counterexample.** After a single redirect `/a → /b`, the body is
written to the output path derived from the redirect *target* `/b`
(`out/b/index.html`), which differs from the path derived from the original
request `/a` — refuting the claim that the original request's output path is
used. -/
theorem renderAndWriteN_writes_target_path :
    renderAndWriteN muxC1 (str "/a") (str "out") 0 =
      .ok (urlPathToFilePath (str "/b") (str "out"), str "BODY") ∧
    urlPathToFilePath (str "/b") (str "out") ≠
      urlPathToFilePath (str "/a") (str "out") := by
  constructor
  · decide
  · decide

/-- A router with a 6-hop chain from `/r0` and a 5-hop chain from `/s0`
ending in a 200 response. -/
def muxC1W : List Char → Response := fun p =>
  if p = str "/r0" then ⟨301, str "/r1", [], []⟩
  else if p = str "/r1" then ⟨302, str "/r2", [], []⟩
  else if p = str "/r2" then ⟨301, str "/r3", [], []⟩
  else if p = str "/r3" then ⟨302, str "/r4", [], []⟩
  else if p = str "/r4" then ⟨301, str "/r5", [], []⟩
  else if p = str "/r5" then ⟨301, str "/r6", [], []⟩
  else if p = str "/s0" then ⟨301, str "/s1", [], []⟩
  else if p = str "/s1" then ⟨302, str "/s2", [], []⟩
  else if p = str "/s2" then ⟨301, str "/s3", [], []⟩
  else if p = str "/s3" then ⟨302, str "/s4", [], []⟩
  else if p = str "/s4" then ⟨301, str "/s5", [], []⟩
  else if p = str "/s5" then ⟨200, [], str "text/css", str "FINAL"⟩
  else ⟨404, [], [], []⟩

/-- Witness for the amended C1: the 6-hop chain errors, the 5-hop chain
succeeds with path and body taken from the final target. -/
theorem renderAndWriteN_redirects_witness :
    redirectChain muxC1W (str "/r0")
      [str "/r1", str "/r2", str "/r3", str "/r4", str "/r5", str "/r6"] = true ∧
    renderAndWriteN muxC1W (str "/r0") [] 0 =
      .error (.tooManyRedirects (str "/r6")) ∧
    redirectChain muxC1W (str "/s0")
      [str "/s1", str "/s2", str "/s3", str "/s4", str "/s5"] = true ∧
    renderAndWriteN muxC1W (str "/s0") [] 0 =
      .ok (urlPathToFilePath (str "/s5") [],
           processBody (muxC1W (str "/s5")) (str "/s5")) :=
  ⟨by decide,
   (renderAndWriteN_redirects muxC1W [] (str "/r0")
      [str "/r1", str "/r2", str "/r3", str "/r4", str "/r5", str "/r6"]
      (by decide)).1 rfl,
   by decide,
   (renderAndWriteN_redirects muxC1W [] (str "/s0")
      [str "/s1", str "/s2", str "/s3", str "/s4", str "/s5"]
      (by decide)).2 rfl (by decide)⟩

/-! ## The crawl loop (`GenerateStaticSite`) -/

/-- A run-level failure of `GenerateStaticSite`'s page phase: the homepage
render failed (`return fmt.Errorf("rendering homepage: %w", err)`). -/
inductive GenError where
  | homepage (e : RenderError)
deriving DecidableEq

/-- The fixed static informational pages of `GenerateStaticSite`. -/
def staticPages : List (List Char) :=
  [str "/about", str "/license-policy", str "/search-help"]

/-- The per-page step of the crawl loop: on error, log the page's path and
continue; on success, record the written output. -/
def pageStep (mux : List Char → Response) (outDir : List Char)
    (st : List (List Char × List Char) × List (List Char)) (p : List Char) :
    List (List Char × List Char) × List (List Char) :=
  match renderAndWrite mux p outDir with
  | .error _ => (st.1, st.2 ++ [p])
  | .ok o => (st.1 ++ [o], st.2)

/-- The page-rendering phase of source `GenerateStaticSite` (server
construction, enumeration, asset copying and the favicon are outside this
claim; the unit paths are taken as input): render the homepage, aborting the
whole run on failure; then render each static page and each unit page
(`"/" + p`), logging failed paths via `log.Errorf` and continuing.  Returns
the written `(path, bytes)` pairs and the logged failing paths. -/
def generatePages (mux : List Char → Response) (outDir : List Char)
    (paths : List (List Char)) :
    Except GenError (List (List Char × List Char) × List (List Char)) :=
  match renderAndWrite mux (str "/") outDir with
  | .error e => .error (.homepage e)
  | .ok out0 =>
    let st1 := staticPages.foldl (pageStep mux outDir) ([out0], [])
    let st2 := (paths.map (fun p => '/' :: p)).foldl (pageStep mux outDir) st1
    .ok st2

/-- **C9 counterexample.** The homepage is a page of the crawl, and its
failure (here an unexpected 500 status) aborts the whole run with an error
instead of being logged and skipped. -/
theorem generatePages_homepage_aborts :
    generatePages (fun _ => ⟨500, [], [], []⟩) (str "out") [] =
      .error (.homepage (.unexpectedStatus (str "/") 500)) := by
  decide

theorem pageStep_foldl_length (mux : List Char → Response) (outDir : List Char) :
    ∀ (l : List (List Char)) (st : List (List Char × List Char) × List (List Char)),
      (l.foldl (pageStep mux outDir) st).1.length
        + (l.foldl (pageStep mux outDir) st).2.length
        = st.1.length + st.2.length + l.length := by
  intro l
  induction l with
  | nil => intro st; simp
  | cons p l ih =>
    intro st
    rw [List.foldl_cons, ih]
    cases h : renderAndWrite mux p outDir with
    | error e =>
      simp only [pageStep, h, List.length_append, List.length_cons, List.length_nil]
      omega
    | ok o =>
      simp only [pageStep, h, List.length_append, List.length_cons, List.length_nil]
      omega

/-- **C9 (amended).** Failures of static pages and unit pages never abort the
crawl: the run fails exactly when the *homepage* render fails, and on success
every one of the `1 + 3 + n` pages was attempted — each contributes either a
written output or a logged failure, so the loop continued past every failing
page. -/
theorem generatePages_continues (mux : List Char → Response)
    (outDir : List Char) (paths : List (List Char)) :
    ((∃ r, generatePages mux outDir paths = .ok r) ↔
      (∃ o, renderAndWrite mux (str "/") outDir = .ok o)) ∧
    (∀ outs logged, generatePages mux outDir paths = .ok (outs, logged) →
      outs.length + logged.length = 1 + staticPages.length + paths.length) := by
  constructor
  · cases h : renderAndWrite mux (str "/") outDir with
    | error e =>
      constructor
      · rintro ⟨r, hr⟩
        rw [generatePages, h] at hr
        simp at hr
      · rintro ⟨o, ho⟩
        exact Except.noConfusion ho
    | ok o =>
      constructor
      · intro _; exact ⟨o, rfl⟩
      · intro _
        refine ⟨(paths.map (fun p => '/' :: p)).foldl (pageStep mux outDir)
          (staticPages.foldl (pageStep mux outDir) ([o], [])), ?_⟩
        rw [generatePages, h]
  · intro outs logged heq
    cases h : renderAndWrite mux (str "/") outDir with
    | error e =>
      rw [generatePages, h] at heq
      simp at heq
    | ok o =>
      rw [generatePages, h] at heq
      simp only [Except.ok.injEq] at heq
      have h1 := pageStep_foldl_length mux outDir staticPages ([o], [])
      have h2 := pageStep_foldl_length mux outDir (paths.map (fun p => '/' :: p))
        (staticPages.foldl (pageStep mux outDir) ([o], []))
      rw [heq] at h2
      simp only [List.length_map, List.length_cons, List.length_nil] at h1 h2 ⊢
      omega

/-- A router where only the homepage succeeds. -/
def muxC9W : List Char → Response := fun p =>
  if p = str "/" then ⟨200, [], str "text/css", str "HOME"⟩
  else ⟨404, [], [], []⟩

/-- Witness for the amended C9: with only the homepage succeeding, all four
other pages fail, are logged, and the run still completes. -/
theorem generatePages_continues_witness :
    generatePages muxC9W (str "o") [str "p"] =
      .ok ([(str "o/index.html", str "HOME")],
           [str "/about", str "/license-policy", str "/search-help", str "/p"]) ∧
    ([(str "o/index.html", str "HOME")] : List (List Char × List Char)).length
        + ([str "/about", str "/license-policy", str "/search-help", str "/p"]).length
      = 1 + staticPages.length + ([str "p"]).length :=
  ⟨by decide,
   (generatePages_continues muxC9W (str "o") [str "p"]).2
     [(str "o/index.html", str "HOME")]
     [str "/about", str "/license-policy", str "/search-help", str "/p"]
     (by decide)⟩

/-! ## Path enumeration (`enumerateUnitPaths`) -/

/-- A module getter as `enumerateUnitPaths` consumes it: `fetch.FetchLazyModule`
with this getter either fails (`lm.Error != nil`) or yields the paths of the
module's `UnitMetas`. -/
abbrev Getter : Type := List Char → Except Unit (List (List Char))

/-- The inner getter loop of `enumerateUnitPaths`: `continue` to the next
getter on error; the first getter that answers is used exclusively (`break`),
and a module all of whose getters fail contributes nothing. -/
def firstOkUnits (getters : List Getter) (m : List Char) : List (List Char) :=
  match getters with
  | [] => []
  | g :: rest =>
    match g m with
    | .error _ => firstOkUnits rest m
    | .ok ums => ums

/-- The `seen`-map guarded append of the source: a unit path is appended to
the output exactly when it has not been seen before.  The first component is
the set of seen paths (as a list), the second the output in append order. -/
def addUnitPath (st : List (List Char) × List (List Char)) (um : List Char) :
    List (List Char) × List (List Char) :=
  if um ∈ st.1 then st else (um :: st.1, st.2 ++ [um])

/-- Byte-wise lexicographic order on strings, the order `sort.Strings` uses
(character-wise is identical on the ASCII data involved). -/
def lexLe : List Char → List Char → Bool
  | [], _ => true
  | _ :: _, [] => false
  | a :: as, b :: bs =>
    if a.toNat < b.toNat then true
    else if a.toNat = b.toNat then lexLe as bs
    else false

/-- Source `enumerateUnitPaths`: the nested loops over modules and getters
with the `seen` map, followed by `sort.Strings`, and the unconditional
`return paths, nil`.  The sort is modelled by insertion sort: on the
deduplicated output, any sort for an antisymmetric total order produces the
same list `sort.Strings` does. -/
def enumerateUnitPaths (getters : List Getter) (modules : List (List Char)) :
    Except Unit (List (List Char)) :=
  let st := modules.foldl
    (fun st m => (firstOkUnits getters m).foldl addUnitPath st) ([], [])
  .ok (List.insertionSort (fun a b => lexLe a b = true) st.2)

theorem lexLe_total : ∀ a b : List Char, lexLe a b = true ∨ lexLe b a = true
  | [], _ => Or.inl rfl
  | _ :: _, [] => Or.inr rfl
  | a :: as, b :: bs => by
    rcases Nat.lt_trichotomy a.toNat b.toNat with h | h | h
    · left; simp [lexLe, h]
    · rcases lexLe_total as bs with hr | hr
      · left; simp [lexLe, h, hr, show ¬a.toNat < b.toNat by omega]
      · right; simp [lexLe, h.symm, hr, show ¬b.toNat < a.toNat by omega]
    · right; simp [lexLe, h]

theorem lexLe_trans : ∀ a b c : List Char,
    lexLe a b = true → lexLe b c = true → lexLe a c = true
  | [], _, _, _, _ => rfl
  | _ :: _, [], _, hab, _ => by simp [lexLe] at hab
  | _ :: _, _ :: _, [], _, hbc => by simp [lexLe] at hbc
  | a :: as, b :: bs, c :: cs, hab, hbc => by
    have hab' : a.toNat < b.toNat ∨ (a.toNat = b.toNat ∧ lexLe as bs = true) := by
      by_cases h1 : a.toNat < b.toNat
      · exact Or.inl h1
      · by_cases h3 : a.toNat = b.toNat
        · exact Or.inr ⟨h3, by simpa [lexLe, h1, h3] using hab⟩
        · exact absurd hab (by simp [lexLe, h1, h3])
    have hbc' : b.toNat < c.toNat ∨ (b.toNat = c.toNat ∧ lexLe bs cs = true) := by
      by_cases h2 : b.toNat < c.toNat
      · exact Or.inl h2
      · by_cases h4 : b.toNat = c.toNat
        · exact Or.inr ⟨h4, by simpa [lexLe, h2, h4] using hbc⟩
        · exact absurd hbc (by simp [lexLe, h2, h4])
    rcases hab' with h | ⟨he, hr⟩ <;> rcases hbc' with h2 | ⟨he2, hr2⟩
    · simp [lexLe, show a.toNat < c.toNat by omega]
    · simp [lexLe, show a.toNat < c.toNat by omega]
    · simp [lexLe, show a.toNat < c.toNat by omega]
    · simp only [lexLe]
      rw [if_neg (by omega), if_pos (by omega)]
      exact lexLe_trans as bs cs hr hr2

instance : DecidableRel (fun a b : List Char => lexLe a b = true) :=
  fun a b => Bool.decEq (lexLe a b) true

instance : IsTotal (List Char) (fun a b => lexLe a b = true) := ⟨lexLe_total⟩

instance : IsTrans (List Char) (fun a b => lexLe a b = true) :=
  ⟨fun a b c => lexLe_trans a b c⟩

theorem addUnitPath_foldl : ∀ (ums : List (List Char))
    (st : List (List Char) × List (List Char)),
    st.2.Nodup → (∀ x, x ∈ st.2 ↔ x ∈ st.1) →
    (ums.foldl addUnitPath st).2.Nodup ∧
    (∀ x, x ∈ (ums.foldl addUnitPath st).2 ↔ x ∈ (ums.foldl addUnitPath st).1) ∧
    (∀ x, x ∈ (ums.foldl addUnitPath st).2 ↔ (x ∈ st.2 ∨ x ∈ ums))
  | [], st, hnd, hiff => ⟨hnd, hiff, by simp⟩
  | um :: rest, st, hnd, hiff => by
    rw [List.foldl_cons]
    by_cases hm : um ∈ st.1
    · have hstep : addUnitPath st um = st := by simp [addUnitPath, hm]
      rw [hstep]
      obtain ⟨h1, h2, h3⟩ := addUnitPath_foldl rest st hnd hiff
      refine ⟨h1, h2, ?_⟩
      intro x
      rw [h3 x]
      have hum : um ∈ st.2 := (hiff um).mpr hm
      constructor
      · rintro (h | h)
        · exact Or.inl h
        · exact Or.inr (List.mem_cons_of_mem _ h)
      · rintro (h | h)
        · exact Or.inl h
        · rcases List.mem_cons.mp h with he | h
          · subst he; exact Or.inl hum
          · exact Or.inr h
    · have hnotmem : um ∉ st.2 := fun hum2 => hm ((hiff um).mp hum2)
      have hstep : addUnitPath st um = (um :: st.1, st.2 ++ [um]) := by
        simp [addUnitPath, hm]
      rw [hstep]
      have hnd' : (st.2 ++ [um]).Nodup := by
        refine List.Nodup.append hnd (List.nodup_singleton um) ?_
        intro a ha hb
        simp only [List.mem_singleton] at hb
        subst hb
        exact hnotmem ha
      have hiff' : ∀ x, x ∈ st.2 ++ [um] ↔ x ∈ um :: st.1 := by
        intro x
        simp only [List.mem_append, List.mem_singleton, List.mem_cons, hiff x]
        tauto
      obtain ⟨h1, h2, h3⟩ := addUnitPath_foldl rest (um :: st.1, st.2 ++ [um]) hnd' hiff'
      refine ⟨h1, h2, ?_⟩
      intro x
      rw [h3 x]
      simp only [List.mem_append, List.mem_singleton, List.mem_cons]
      tauto

theorem collect_foldl (getters : List Getter) : ∀ (modules : List (List Char))
    (st : List (List Char) × List (List Char)),
    st.2.Nodup → (∀ x, x ∈ st.2 ↔ x ∈ st.1) →
    ((modules.foldl (fun st m => (firstOkUnits getters m).foldl addUnitPath st) st).2.Nodup ∧
    (∀ x, x ∈ (modules.foldl (fun st m =>
        (firstOkUnits getters m).foldl addUnitPath st) st).2 ↔
      (x ∈ st.2 ∨ ∃ m ∈ modules, x ∈ firstOkUnits getters m)))
  | [], st, hnd, hiff => ⟨hnd, by simp⟩
  | m0 :: ms, st, hnd, hiff => by
    rw [List.foldl_cons]
    obtain ⟨h1, h2, h3⟩ := addUnitPath_foldl (firstOkUnits getters m0) st hnd hiff
    obtain ⟨g1, g3⟩ := collect_foldl getters ms _ h1 h2
    refine ⟨g1, ?_⟩
    intro x
    rw [g3 x, h3 x]
    constructor
    · rintro ((h | h) | ⟨m, hm, hx⟩)
      · exact Or.inl h
      · exact Or.inr ⟨m0, by simp, h⟩
      · exact Or.inr ⟨m, by simp [hm], hx⟩
    · rintro (h | ⟨m, hm, hx⟩)
      · exact Or.inl (Or.inl h)
      · rcases List.mem_cons.mp hm with he | hm
        · subst he; exact Or.inl (Or.inr hx)
        · exact Or.inr ⟨m, hm, hx⟩

/-- **C8.** `enumerateUnitPaths` never returns an error; its result is
deduplicated and in lexicographic order; and a path is in the result exactly
when the *first* getter answering for one of the catalog's modules lists it —
so that getter is used exclusively per entry, and an entry all of whose
getters fail is silently skipped while enumeration continues. -/
theorem enumerateUnitPaths_spec (getters : List Getter)
    (modules : List (List Char)) :
    ∃ l, enumerateUnitPaths getters modules = Except.ok l ∧
      l.Nodup ∧
      List.Sorted (fun a b => lexLe a b = true) l ∧
      (∀ x, x ∈ l ↔ ∃ m ∈ modules, x ∈ firstOkUnits getters m) := by
  obtain ⟨h1, h3⟩ := collect_foldl getters modules ([], []) (by simp) (by simp)
  refine ⟨_, rfl, ?_, List.sorted_insertionSort _ _, ?_⟩
  · exact ((List.perm_insertionSort _ _).nodup_iff).mpr h1
  · intro x
    rw [(List.perm_insertionSort _ _).mem_iff, h3 x]
    simp

/-! ## DOM-based HTML transformer (`walkNodes`, from the `x/net/html` generation) -/

/-- The node types of `golang.org/x/net/html`. -/
inductive NodeType where
  | errorNode
  | textNode
  | documentNode
  | elementNode
  | commentNode
  | doctypeNode
  | rawNode
deriving DecidableEq

/-- An `html.Attribute` (the `Namespace` field is never set by the generator
and is omitted). -/
structure Attribute where
  key : List Char
  val : List Char
deriving DecidableEq

mutual
/-- An `html.Node`: type, tag-or-text data, attributes, children.  The Go
structure's parent/sibling pointers are represented by the tree shape. -/
inductive Node where
  | mk (ty : NodeType) (data : List Char) (attr : List Attribute) (children : NodeList)
/-- A child list in document order. -/
inductive NodeList where
  | nil
  | cons (n : Node) (rest : NodeList)
end

def Node.nodeAttr : Node → List Attribute
  | .mk _ _ a _ => a

def NodeList.isNil : NodeList → Bool
  | .nil => true
  | .cons _ _ => false

/-- Source `isURLAttr`: the fixed URL-bearing attribute name set. -/
def isURLAttr (attr : List Char) : Bool :=
  attr == str "href" || attr == str "src" || attr == str "action" ||
  attr == str "poster" || attr == str "data"

/-- The rewrite condition of `walkNodes`:
`strings.HasPrefix(a.Val, "/") && !strings.HasPrefix(a.Val, "//")`. -/
def isRewriteTarget (v : List Char) : Bool :=
  (str "/").isPrefixOf v && !(str "//").isPrefixOf v

/-- The per-attribute rewrite of `walkNodes`:
`n.Attr[i].Val = prefix + a.Val[1:]` when the name is URL-bearing and the
value is a rewrite target. -/
def rewriteURLAttr (pre : List Char) (a : Attribute) : Attribute :=
  if isURLAttr a.key && isRewriteTarget a.val then ⟨a.key, pre ++ a.val.drop 1⟩
  else a

/-- The attributes of the injected CSP meta node. -/
def cspAttrs : List Attribute :=
  [⟨str "http-equiv", str "Content-Security-Policy"⟩, ⟨str "content", cspContent⟩]

/-- The CSP `<meta>` node `walkNodes` inserts as the first child of `head`. -/
def cspMetaNode : Node := .mk .elementNode (str "meta") cspAttrs .nil

/-- Source `relativizeScriptText`: textual replacement of the double- and
single-quoted `/static/` and `/third_party/` prefixes inside inline script
text. -/
def relativizeScriptText (script pre : List Char) : List Char :=
  ([str "/static/", str "/third_party/"]).foldl (fun s d =>
    let s := replaceAll (dqc :: d) (dqc :: (pre ++ d.drop 1)) s
    replaceAll (sqc :: d) (sqc :: (pre ++ d.drop 1)) s) script

/-- The inline-`script` pass of `walkNodes`: for each text child, rewrite its
data; other children are untouched. -/
def rewriteScriptChild (pre : List Char) : Node → Node
  | .mk ty d a cs =>
    if ty = .textNode then .mk ty (relativizeScriptText d pre) a cs
    else .mk ty d a cs

def mapNL (f : Node → Node) : NodeList → NodeList
  | .nil => .nil
  | .cons n rest => .cons (f n) (mapNL f rest)

mutual
/-- Source `walkNodes` (pure form).  The Go code, per node: (1) rewrites URL
attributes; (2) if the node is `head`, inserts the CSP meta as its first
child; (3) if the node is an inline `script`, rewrites its text children; and
then recurses over the (updated) children.  Here the original children are
walked first and the head/script passes applied after, which yields the same
tree: the inserted `cspMetaNode` is a fixed point of the walk
(`walkNodes_cspMetaNode` below — its attributes are not URL-bearing and it has
no children), and `rewriteScriptChild` commutes with the walk because it only
changes the `data` of text nodes, which the walk never reads. -/
def walkNodes (pre : List Char) : Node → Node
  | .mk ty d a cs =>
    let a' := if ty = .elementNode then a.map (rewriteURLAttr pre) else a
    let kids1 := walkList pre cs
    let kids2 := if ty = .elementNode ∧ d = str "script" then
        mapNL (rewriteScriptChild pre) kids1 else kids1
    let kids3 := if ty = .elementNode ∧ d = str "head" then
        .cons cspMetaNode kids2 else kids2
    .mk ty d a' kids3

def walkList (pre : List Char) : NodeList → NodeList
  | .nil => .nil
  | .cons n rest => .cons (walkNodes pre n) (walkList pre rest)
end

theorem rewriteURLAttr_key (pre : List Char) (a : Attribute) :
    (rewriteURLAttr pre a).key = a.key := by
  rw [rewriteURLAttr]
  split <;> rfl

theorem rewriteURLAttr_of_not_url (pre : List Char) (a : Attribute)
    (h : isURLAttr a.key = false) : rewriteURLAttr pre a = a := by
  rw [rewriteURLAttr, if_neg]
  simp [h]

theorem rewriteURLAttr_csp (pre : List Char) :
    cspAttrs.map (rewriteURLAttr pre) = cspAttrs := by
  simp only [cspAttrs, List.map]
  rw [rewriteURLAttr_of_not_url pre _ (by decide),
      rewriteURLAttr_of_not_url pre _ (by decide)]

theorem walkNodes_cspMetaNode (pre : List Char) :
    walkNodes pre cspMetaNode = cspMetaNode := by
  have hm1 : str "meta" ≠ str "script" := by decide
  have hm2 : str "meta" ≠ str "head" := by decide
  rw [cspMetaNode, walkNodes]
  simp [walkList, hm1, hm2, rewriteURLAttr_csp]

/-- 1 when a node's components are exactly the CSP meta node's (element
`meta`, the CSP attributes, no children), else 0. -/
def cspFlag (ty : NodeType) (d : List Char) (a : List Attribute) (nilKids : Bool) : Nat :=
  if ty = .elementNode ∧ d = str "meta" ∧ a = cspAttrs ∧ nilKids = true then 1 else 0

mutual
/-- Number of CSP meta nodes in a tree. -/
def countCSP : Node → Nat
  | .mk ty d a cs => cspFlag ty d a cs.isNil + countCSPList cs
def countCSPList : NodeList → Nat
  | .nil => 0
  | .cons n rest => countCSP n + countCSPList rest
end

mutual
/-- Number of `head` elements in a tree. -/
def countHeads : Node → Nat
  | .mk ty d _ cs =>
    (if ty = .elementNode ∧ d = str "head" then 1 else 0) + countHeadsList cs
def countHeadsList : NodeList → Nat
  | .nil => 0
  | .cons n rest => countHeads n + countHeadsList rest
end

/-- Whether a node is the CSP meta node. -/
def isCSPMetaB : Node → Bool
  | .mk ty d a cs => decide (ty = .elementNode ∧ d = str "meta" ∧ a = cspAttrs) && cs.isNil

/-- Whether a child list starts with the CSP meta node. -/
def firstIsCSP : NodeList → Bool
  | .nil => false
  | .cons c _ => isCSPMetaB c

mutual
/-- Every `head` element of the tree has the CSP meta node as first child. -/
def headsCSPFirst : Node → Bool
  | .mk ty d _ cs =>
    (if ty = .elementNode ∧ d = str "head" then firstIsCSP cs else true) &&
    headsCSPFirstList cs
def headsCSPFirstList : NodeList → Bool
  | .nil => true
  | .cons n rest => headsCSPFirst n && headsCSPFirstList rest
end

theorem walkList_isNil (pre : List Char) (cs : NodeList) :
    (walkList pre cs).isNil = cs.isNil := by
  cases cs <;> rfl

theorem map_rewriteURLAttr_eq_cspAttrs (pre : List Char) (a : List Attribute) :
    a.map (rewriteURLAttr pre) = cspAttrs ↔ a = cspAttrs := by
  constructor
  · intro h
    cases a with
    | nil => simp [cspAttrs] at h
    | cons x a' =>
      cases a' with
      | nil => simp [cspAttrs] at h
      | cons y a'' =>
        cases a'' with
        | cons z rest => simp [cspAttrs] at h
        | nil =>
          simp only [cspAttrs, List.map_cons, List.map_nil, List.cons.injEq,
            and_true] at h
          obtain ⟨h1, h2⟩ := h
          have hkx : x.key = str "http-equiv" := by
            have hk := congrArg Attribute.key h1
            rw [rewriteURLAttr_key] at hk
            exact hk
          have hky : y.key = str "content" := by
            have hk := congrArg Attribute.key h2
            rw [rewriteURLAttr_key] at hk
            exact hk
          have hx := rewriteURLAttr_of_not_url pre x (by rw [hkx]; decide)
          have hy := rewriteURLAttr_of_not_url pre y (by rw [hky]; decide)
          rw [hx] at h1
          rw [hy] at h2
          simp [cspAttrs, h1, h2]
  · intro h
    subst h
    exact rewriteURLAttr_csp pre

theorem cspFlag_false_nil (ty : NodeType) (d : List Char) (a : List Attribute) :
    cspFlag ty d a false = 0 := by
  rw [cspFlag, if_neg]
  rintro ⟨_, _, _, h⟩
  exact Bool.false_ne_true h

theorem cspFlag_not_meta (ty : NodeType) (d : List Char) (a : List Attribute)
    (b : Bool) (h : d ≠ str "meta") : cspFlag ty d a b = 0 := by
  rw [cspFlag, if_neg]
  rintro ⟨_, h2, _, _⟩
  exact h h2

theorem cspFlag_map (pre : List Char) (ty : NodeType) (d : List Char)
    (a : List Attribute) (b : Bool) :
    cspFlag ty d (a.map (rewriteURLAttr pre)) b = cspFlag ty d a b := by
  simp only [cspFlag, map_rewriteURLAttr_eq_cspAttrs]

theorem cspFlag_not_element (ty : NodeType) (d : List Char) (a : List Attribute)
    (b : Bool) (h : ty ≠ .elementNode) : cspFlag ty d a b = 0 := by
  rw [cspFlag, if_neg]
  rintro ⟨h1, _⟩
  exact h h1

theorem countCSP_rewriteScriptChild (pre : List Char) (c : Node) :
    countCSP (rewriteScriptChild pre c) = countCSP c := by
  cases c with
  | mk ty d a cs =>
    by_cases h : ty = .textNode
    · subst h
      rw [rewriteScriptChild, if_pos rfl]
      rw [countCSP, countCSP, cspFlag_not_element _ _ _ _ (by decide),
          cspFlag_not_element _ _ _ _ (by decide)]
    · rw [rewriteScriptChild, if_neg h]

theorem countCSPList_mapNL (pre : List Char) : ∀ cs : NodeList,
    countCSPList (mapNL (rewriteScriptChild pre) cs) = countCSPList cs
  | .nil => rfl
  | .cons n rest => by
    rw [mapNL, countCSPList, countCSPList, countCSP_rewriteScriptChild,
      countCSPList_mapNL pre rest]

theorem headsCSPFirst_rewriteScriptChild (pre : List Char) (c : Node) :
    headsCSPFirst (rewriteScriptChild pre c) = headsCSPFirst c := by
  cases c with
  | mk ty d a cs =>
    by_cases h : ty = .textNode
    · subst h
      rw [rewriteScriptChild, if_pos rfl]
      rw [headsCSPFirst, headsCSPFirst,
        if_neg (by rintro ⟨h1, _⟩; exact absurd h1 (by decide)),
        if_neg (by rintro ⟨h1, _⟩; exact absurd h1 (by decide))]
    · rw [rewriteScriptChild, if_neg h]

theorem headsCSPFirstList_mapNL (pre : List Char) : ∀ cs : NodeList,
    headsCSPFirstList (mapNL (rewriteScriptChild pre) cs) = headsCSPFirstList cs
  | .nil => rfl
  | .cons n rest => by
    rw [mapNL, headsCSPFirstList, headsCSPFirstList,
      headsCSPFirst_rewriteScriptChild, headsCSPFirstList_mapNL pre rest]

mutual

theorem countCSP_walk (pre : List Char) : ∀ n : Node,
    countCSP (walkNodes pre n) = countCSP n + countHeads n
  | .mk ty d a cs => by
    have hwil := countCSPList_walk pre cs
    simp only [walkNodes]
    by_cases hH : ty = .elementNode ∧ d = str "head"
    · have hS : ¬(ty = .elementNode ∧ d = str "script") := by
        rintro ⟨_, hd⟩
        rw [hH.2] at hd
        exact absurd hd (by decide)
      rw [if_neg hS, if_pos hH]
      rw [countCSP, countCSP, countCSPList, countHeads, if_pos hH]
      rw [cspFlag_not_meta _ _ _ _ (by rw [hH.2]; decide),
          cspFlag_not_meta _ _ _ _ (by rw [hH.2]; decide)]
      have hmeta : countCSP cspMetaNode = 1 := by decide
      rw [hmeta, hwil]
      omega
    · by_cases hS : ty = .elementNode ∧ d = str "script"
      · rw [if_pos hS, if_neg hH]
        rw [countCSP, countCSP, countHeads, if_neg hH]
        rw [countCSPList_mapNL, hwil]
        have hflag : cspFlag ty d
            (if ty = .elementNode then a.map (rewriteURLAttr pre) else a)
            (mapNL (rewriteScriptChild pre) (walkList pre cs)).isNil = 0 := by
          apply cspFlag_not_meta
          rw [hS.2]
          decide
        rw [hflag, cspFlag_not_meta _ _ _ _ (by rw [hS.2]; decide)]
        omega
      · rw [if_neg hS, if_neg hH]
        rw [countCSP, countCSP, countHeads, if_neg hH]
        rw [hwil, walkList_isNil]
        have hflag : cspFlag ty d
            (if ty = .elementNode then a.map (rewriteURLAttr pre) else a)
            cs.isNil = cspFlag ty d a cs.isNil := by
          by_cases hel : ty = .elementNode
          · rw [if_pos hel, cspFlag_map]
          · rw [if_neg hel]
        rw [hflag]
        omega

theorem countCSPList_walk (pre : List Char) : ∀ cs : NodeList,
    countCSPList (walkList pre cs) = countCSPList cs + countHeadsList cs
  | .nil => rfl
  | .cons n rest => by
    rw [walkList, countCSPList, countCSPList, countHeadsList,
      countCSP_walk pre n, countCSPList_walk pre rest]
    omega

end

mutual

theorem headsCSPFirst_walk (pre : List Char) : ∀ n : Node,
    headsCSPFirst (walkNodes pre n) = true
  | .mk ty d a cs => by
    have hwil := headsCSPFirstList_walk pre cs
    simp only [walkNodes]
    by_cases hH : ty = .elementNode ∧ d = str "head"
    · have hS : ¬(ty = .elementNode ∧ d = str "script") := by
        rintro ⟨_, hd⟩
        rw [hH.2] at hd
        exact absurd hd (by decide)
      rw [if_neg hS, if_pos hH]
      rw [headsCSPFirst, if_pos hH, firstIsCSP]
      have hfirst : isCSPMetaB cspMetaNode = true := by decide
      have hmeta : headsCSPFirst cspMetaNode = true := by decide
      rw [headsCSPFirstList, hmeta, hwil, hfirst]
      rfl
    · by_cases hS : ty = .elementNode ∧ d = str "script"
      · rw [if_pos hS, if_neg hH]
        rw [headsCSPFirst, if_neg hH, headsCSPFirstList_mapNL, hwil]
        rfl
      · rw [if_neg hS, if_neg hH]
        rw [headsCSPFirst, if_neg hH, hwil]
        rfl

theorem headsCSPFirstList_walk (pre : List Char) : ∀ cs : NodeList,
    headsCSPFirstList (walkList pre cs) = true
  | .nil => rfl
  | .cons n rest => by
    rw [walkList, headsCSPFirstList, headsCSPFirst_walk pre n,
      headsCSPFirstList_walk pre rest]
    rfl

end

/-- **C4.** For every tree with exactly one `head` element (what parsing an
HTML document yields, whatever the original head tag's spelling — the parser
normalises it), the walk inserts the CSP meta node exactly once — the output
contains precisely one more CSP meta node than the input — and every `head`
element of the output has the CSP meta node as its *first* child, regardless
of `head`'s pre-existing children. -/
theorem walkNodes_csp_once_first (pre : List Char) (n : Node)
    (hone : countHeads n = 1) :
    countCSP (walkNodes pre n) = countCSP n + 1 ∧
    headsCSPFirst (walkNodes pre n) = true := by
  refine ⟨?_, headsCSPFirst_walk pre n⟩
  rw [countCSP_walk pre n, hone]

/-- A concrete document: `<html><head><title/></head><body/></html>`. -/
def docC4W : Node :=
  .mk .documentNode [] []
    (.cons (.mk .elementNode (str "html") []
      (.cons (.mk .elementNode (str "head") []
        (.cons (.mk .elementNode (str "title") [] .nil) .nil))
      (.cons (.mk .elementNode (str "body") [] .nil) .nil))) .nil)

/-- Witness for C4 on a concrete single-head document. -/
theorem walkNodes_csp_once_first_witness :
    countHeads docC4W = 1 ∧
    countCSP (walkNodes (str "../") docC4W) = countCSP docC4W + 1 ∧
    headsCSPFirst (walkNodes (str "../") docC4W) = true :=
  ⟨by decide,
   (walkNodes_csp_once_first (str "../") docC4W (by decide)).1,
   (walkNodes_csp_once_first (str "../") docC4W (by decide)).2⟩

/-- **C3.** `isURLAttr` accepts exactly {href, src, action, poster, data} and
no other name; for such an attribute whose value is a rewrite target (begins
with `/` but not `//`), the transformer replaces the value by the prefix
followed by the value with its leading slash stripped; a value of exactly `/`
becomes the prefix itself; other attribute names are left untouched; and
`walkNodes` applies exactly this per-attribute rewrite to every element
node's attribute list (and only to element nodes). -/
theorem isURLAttr_rewrite_spec (pre k v : List Char) :
    (isURLAttr k = true ↔
      (k = str "href" ∨ k = str "src" ∨ k = str "action" ∨
       k = str "poster" ∨ k = str "data")) ∧
    (isURLAttr k = true → isRewriteTarget v = true →
      rewriteURLAttr pre ⟨k, v⟩ = ⟨k, pre ++ v.drop 1⟩) ∧
    (isURLAttr k = true → rewriteURLAttr pre ⟨k, str "/"⟩ = ⟨k, pre⟩) ∧
    (isURLAttr k = false → rewriteURLAttr pre ⟨k, v⟩ = ⟨k, v⟩) ∧
    (∀ ty d a cs, (walkNodes pre (.mk ty d a cs)).nodeAttr =
      (if ty = .elementNode then a.map (rewriteURLAttr pre) else a)) := by
  refine ⟨?_, ?_, ?_, ?_, ?_⟩
  · simp only [isURLAttr, Bool.or_eq_true, beq_iff_eq]
    tauto
  · intro h1 h2
    simp [rewriteURLAttr, h1, h2]
  · intro h1
    have h2 : isRewriteTarget (str "/") = true := by decide
    have h3 : (str "/").drop 1 = [] := by decide
    simp [rewriteURLAttr, h1, h2, h3]
  · intro h
    simp [rewriteURLAttr, h]
  · intro ty d a cs
    simp only [walkNodes, Node.nodeAttr]

/-- Witness for C3: `href="/about"` at prefix `../`. -/
theorem isURLAttr_rewrite_spec_witness :
    isURLAttr (str "href") = true ∧
    isRewriteTarget (str "/about") = true ∧
    rewriteURLAttr (str "../") ⟨str "href", str "/about"⟩ =
      ⟨str "href", str "../" ++ (str "/about").drop 1⟩ :=
  ⟨by decide, by decide,
   (isURLAttr_rewrite_spec (str "../") (str "href") (str "/about")).2.1
     (by decide) (by decide)⟩

/-- **C7.** Protocol-relative values (`//…`) and fragment-only values (`#…`)
are never rewrite targets: the attribute rewrite leaves them byte-identical,
for any attribute name and prefix; in particular the walk leaves elements
carrying `href="//example.com"` or `href="#x"` entirely unchanged. -/
theorem nontarget_values_preserved (pre k v : List Char)
    (h : (str "//").isPrefixOf v = true ∨ (str "#").isPrefixOf v = true) :
    rewriteURLAttr pre ⟨k, v⟩ = ⟨k, v⟩ ∧
    walkNodes pre (.mk .elementNode (str "a")
        [⟨str "href", str "//example.com"⟩] .nil) =
      .mk .elementNode (str "a") [⟨str "href", str "//example.com"⟩] .nil ∧
    walkNodes pre (.mk .elementNode (str "a")
        [⟨str "href", str "#x"⟩] .nil) =
      .mk .elementNode (str "a") [⟨str "href", str "#x"⟩] .nil := by
  have hs : str "a" ≠ str "script" := by decide
  have hh : str "a" ≠ str "head" := by decide
  refine ⟨?_, ?_, ?_⟩
  · have hrt : isRewriteTarget v = false := by
      cases h with
      | inl h =>
        rw [isRewriteTarget, h, Bool.not_true, Bool.and_false]
      | inr h =>
        obtain ⟨t, ht⟩ := List.isPrefixOf_iff_prefix.mp h
        have hv : v = '#' :: t := by
          rw [← ht]
          rfl
        rw [isRewriteTarget, hv]
        have h1 : (str "/").isPrefixOf ('#' :: t) = false := by
          have he : str "/" = ['/'] := rfl
          rw [he]
          simp [List.isPrefixOf]
        rw [h1, Bool.false_and]
    simp [rewriteURLAttr, hrt]
  · have hrt : isRewriteTarget (str "//example.com") = false := by decide
    rw [walkNodes]
    simp [walkList, hs, hh, rewriteURLAttr, hrt]
  · have hrt : isRewriteTarget (str "#x") = false := by decide
    rw [walkNodes]
    simp [walkList, hs, hh, rewriteURLAttr, hrt]

/-- Witness for C7 at `href="//example.com"` and `href="#x"`. -/
theorem nontarget_values_preserved_witness :
    ((str "//").isPrefixOf (str "//example.com") = true ∨
      (str "#").isPrefixOf (str "//example.com") = true) ∧
    rewriteURLAttr (str "../") ⟨str "href", str "//example.com"⟩ =
      ⟨str "href", str "//example.com"⟩ ∧
    rewriteURLAttr (str "../") ⟨str "href", str "#x"⟩ = ⟨str "href", str "#x"⟩ :=
  ⟨Or.inl (by decide),
   (nontarget_values_preserved (str "../") (str "href") (str "//example.com")
     (Or.inl (by decide))).1,
   (nontarget_values_preserved (str "../") (str "href") (str "#x")
     (Or.inr (by decide))).1⟩
